import Mathlib

/-!
Verification of the trace2 drift-analysis engine.

The Python sources (`trace2/fingerprint.py`, `trace2/analyzer.py`,
`trace2/cache.py`, `trace2/config.py`) are embedded shallowly below.
External effects and cryptographic primitives are modelled as explicit
function parameters collected in an `Env` record:
`sha256hex` models `hashlib.sha256(...).hexdigest()` on UTF-8 text,
`tokenHash` models `fingerprint._token_hash` (first 8 bytes of a SHA-256
digest as a big-endian integer), `normalize` models
`normalization.normalize_content`, `readFile` models reading a file that
may be absent, `resolveModuleFiles` models glob expansion in
`Analyzer._resolve_module_files`, and the remaining fields model git and
path resolution.  Floats are modelled by `ℚ`; every float the engine
produces (`k/64` multiples and the literals `1.0`/`0.0`) and every
comparison it performs is exact in binary floating point, so `ℚ` is a
faithful model of the float arithmetic actually used.
-/

namespace Trace2

/-! ### Hex formatting, `%016x` of Python -/

/-- One lowercase hex digit, as produced by Python's `%x` formatting. -/
def hexChar (n : Nat) : Char :=
  if n < 10 then Char.ofNat (48 + n) else Char.ofNat (87 + n)

/-- Hex digits of `n`, least-significant first; structural recursion on a
fuel argument so the kernel can evaluate it (`n + 1` units always
suffice because `n / 16 < n` for `n ≠ 0`). -/
def hexRevFuel : Nat → Nat → List Char
  | 0, _ => []
  | fuel + 1, n =>
    if n < 16 then [hexChar n]
    else hexChar (n % 16) :: hexRevFuel fuel (n / 16)

def hexRev (n : Nat) : List Char := hexRevFuel (n + 1) n


/-- `f"{n:016x}"`: lowercase hex, left-padded with `'0'` to width 16. -/
def toHex16 (n : Nat) : String :=
  let digits := (hexRev n).reverse
  String.mk (List.replicate (16 - digits.length) '0' ++ digits)

/-! ### `int(s, 16)` and `int.bit_count` -/

/-- Value of one hex digit, or `none` for a non-hex character.  Models the
digit handling of `int(s, 16)` (the claims only apply it to strings of
plain hex digits). -/
def hexVal? (c : Char) : Option Nat :=
  if 48 ≤ c.toNat ∧ c.toNat ≤ 57 then some (c.toNat - 48)
  else if 97 ≤ c.toNat ∧ c.toNat ≤ 102 then some (c.toNat - 87)
  else if 65 ≤ c.toNat ∧ c.toNat ≤ 70 then some (c.toNat - 55)
  else none

/-- `int(s, 16)` on a plain digit string; `none` models `ValueError`. -/
def parseHex? (s : String) : Option Nat :=
  if s.data.isEmpty then none
  else
    s.data.foldl
      (fun acc c =>
        match acc, hexVal? c with
        | some a, some v => some (a * 16 + v)
        | _, _ => none)
      (some 0)

/-- `n.bit_count()` of Python (the number of set bits), with a fuel
argument for kernel evaluation; `n + 1` units always suffice. -/
def bitCountFuel : Nat → Nat → Nat
  | 0, _ => 0
  | fuel + 1, n => if n = 0 then 0 else n % 2 + bitCountFuel fuel (n / 2)

def bitCount (n : Nat) : Nat := bitCountFuel (n + 1) n

/-! ### `trace2/fingerprint.py` -/

/-- `fingerprint.FileFingerprint`. -/
structure FileFingerprint where
  sha256_normalized : String
  simhash64 : String
deriving DecidableEq

/-- `fingerprint.ModuleFingerprint`. -/
structure ModuleFingerprint where
  sha256_normalized : String
  simhash64 : String
deriving DecidableEq

/-- The 64-slot vote vector built by the token loop of `simhash64`.
`tokenHash` models `_token_hash`. -/
def simhashVector (tokenHash : String → Nat) (tokens : List String) : Nat → Int :=
  tokens.foldl
    (fun vec token =>
      if token = "" then vec
      else
        let value := tokenHash token
        fun i => vec i + (if (value >>> i) &&& 1 = 1 then 1 else -1))
    (fun _ => 0)

/-- The fingerprint integer assembled from the vote vector: bit `i` is set
iff `vector[i] >= 0`. -/
def simhashBits (vec : Nat → Int) : Nat :=
  (List.range 64).foldl (fun fp i => if 0 ≤ vec i then fp ||| (1 <<< i) else fp) 0

/-- `fingerprint.simhash64`. -/
def simhash64 (tokenHash : String → Nat) (tokens : List String) : String :=
  toHex16 (simhashBits (simhashVector tokenHash tokens))

/-- `fingerprint.hamming_distance`; `none` models the `ValueError` raised
by `int(_, 16)` on non-hex input. -/
def hamming_distance (a b : String) : Option Nat := do
  let x ← parseHex? a
  let y ← parseHex? b
  pure (bitCount (x ^^^ y))

/-- `fingerprint.similarity_score`.  Floats are modelled by `ℚ`; all values
produced here are multiples of `1/64`, which floats represent exactly. -/
def similarity_score (sha_a sha_b simhash_a simhash_b : String) : Option ℚ :=
  if sha_a = sha_b then some 1
  else (hamming_distance simhash_a simhash_b).map fun distance =>
    max 0 (1 - (distance : ℚ) / 64)

/-! ### Python `str.split()` (whitespace split dropping empty pieces) -/

def splitTokens (s : String) : List String :=
  (s.split Char.isWhitespace).filter (fun t => t ≠ "")

/-! ### `trace2/config.py` data model -/

structure SnapshotRef where
  type : String
  ref : String
deriving DecidableEq

structure Source where
  type : String
  repo : Option String := none
  snapshot : Option SnapshotRef := none
  path : Option String := none
deriving DecidableEq

structure Project where
  id : String
  title : String
  source : Source
deriving DecidableEq

/-- `config.Module`; `include` is a Lean keyword so the glob-pattern field
is spelled `include_patterns`. -/
structure Module where
  id : String
  title : String
  language : String
  include_patterns : List String
  exclude : List String
  critical_files : List String
deriving DecidableEq

structure Baseline where
  id : String
  title : String
  source : Source
deriving DecidableEq

structure Requirement where
  id : String
  title : String
  description : String
deriving DecidableEq

/-- One element of `MatrixEntry.requires`: the raw dict
`{id: ..., must_have: ...}`; a missing `id` stringifies to `"None"` and a
missing `must_have` is falsy. -/
structure RequireEntry where
  id : Option String := none
  must_have : Bool := false
deriving DecidableEq

structure MatrixEntry where
  id : String
  requires : List RequireEntry
deriving DecidableEq

structure ExpectationTarget where
  type : String
  baseline_id : Option String := none
  signature : Option String := none
  sha256 : Option String := none
deriving DecidableEq

structure Expectation where
  module : String
  expected_level : String
  target : ExpectationTarget
deriving DecidableEq

/-- The `when` dict of a rule: `projects` and `requires_all` are optional
lists, and Python truthiness treats both `None` and `[]` as absent. -/
structure WhenClause where
  projects : Option (List String) := none
  requires_all : Option (List String) := none
deriving DecidableEq

structure ExpectationRule where
  id : String
  priority : Int
  when : WhenClause
  expect : List Expectation
deriving DecidableEq

/-- One level's threshold dict; `_classify_status` re-defaults each missing
key (`ok` to `1.0`, `warn` to `0.0`). -/
structure ThresholdRec where
  ok : Option ℚ := none
  warn : Option ℚ := none
deriving DecidableEq

/-- The `defaults` mapping of `expectations.yml`: only its `thresholds`
sub-dict (level id to threshold dict) is consulted. -/
structure DefaultsConfig where
  thresholds : List (String × ThresholdRec) := []
deriving DecidableEq

structure ExpectationsConfig where
  defaults : DefaultsConfig
  rules : List ExpectationRule
deriving DecidableEq

structure ConfigBundle where
  projects : List Project
  modules : List Module
  baselines : List Baseline
  requirements : List Requirement
  matrix : List MatrixEntry
  expectations : ExpectationsConfig
deriving DecidableEq

/-! ### `trace2/cache.py` -/

/-- A stored cache record `{"sha256_normalized": ..., "simhash64": ...}`. -/
structure CacheRec where
  sha256_normalized : String
  simhash64 : String
deriving DecidableEq

/-- The two content-addressed stores of `cache.CacheStore`, as maps from
hex key to record. -/
structure Cache where
  fileCache : String → Option CacheRec
  moduleCache : String → Option CacheRec

def Cache.setFile (c : Cache) (k : String) (v : CacheRec) : Cache :=
  { c with fileCache := fun key => if key = k then some v else c.fileCache key }

def Cache.setModule (c : Cache) (k : String) (v : CacheRec) : Cache :=
  { c with moduleCache := fun key => if key = k then some v else c.moduleCache key }

/-- A cold cache: both stores empty. -/
def emptyCache : Cache := ⟨fun _ => none, fun _ => none⟩

/-! ### The modelled externals -/

/-- External collaborators of the analyzer, modelled as pure functions:
hashing primitives, the content normalizer, the filesystem, glob matching
and source-tree materialization. -/
structure Env where
  sha256hex : String → String
  tokenHash : String → Nat
  normalize : String → String
  readFile : String → Option String
  resolveModuleFiles : String → Module → List String
  resolveBaselinePath : Baseline → String
  checkoutGit : String → String → String
  expanduserResolve : String → String

def pathJoin (a b : String) : String := a ++ "/" ++ b

/-! ### `trace2/analyzer.py`: fingerprinting with the cache -/

/-- `Analyzer._fingerprint_file`. -/
def fingerprint_file (env : Env) (cache : Cache) (project_path relative_path : String) :
    Option FileFingerprint × Cache :=
  match env.readFile (pathJoin project_path relative_path) with
  | none => (none, cache)
  | some text =>
    let raw_hash := env.sha256hex text
    match cache.fileCache raw_hash with
    | some cached => (some ⟨cached.sha256_normalized, cached.simhash64⟩, cache)
    | none =>
      let normalized := env.normalize text
      let sha := env.sha256hex normalized
      let simhash_value := simhash64 env.tokenHash (splitTokens normalized)
      (some ⟨sha, simhash_value⟩, cache.setFile raw_hash ⟨sha, simhash_value⟩)

/-- One entry of the per-file evidence list. -/
structure FileEvidence where
  path : String
  sha256_normalized : String
  simhash64 : String
deriving DecidableEq

/-- The running state of the file loop in `_fingerprint_module`: evidence
list, the SHA-256 accumulator input so far (`module_hasher` has absorbed
exactly `shaCat`), the simhash token list, and the cache. -/
structure FpAccum where
  evidence : List FileEvidence
  shaCat : String
  tokens : List String
  cache : Cache

/-- One iteration of the file loop of `_fingerprint_module`. -/
def fp_step (env : Env) (project_path : String) (acc : FpAccum) (file_path : String) :
    FpAccum :=
  match fingerprint_file env acc.cache project_path file_path with
  | (none, c) => { acc with cache := c }
  | (some file_fp, c) =>
    { evidence := acc.evidence ++
        [⟨file_path, file_fp.sha256_normalized, file_fp.simhash64⟩]
      shaCat := acc.shaCat ++ file_fp.sha256_normalized
      tokens := acc.tokens ++ [file_fp.simhash64]
      cache := c }

/-- `Analyzer._fingerprint_module`. -/
def fingerprint_module (env : Env) (project_path : String) (cache : Cache)
    (module_files : List String) :
    Option ModuleFingerprint × List FileEvidence × Cache :=
  if module_files = [] then (none, [], cache)
  else
    let acc := module_files.foldl (fp_step env project_path) ⟨[], "", [], cache⟩
    let module_sha := env.sha256hex acc.shaCat
    match acc.cache.moduleCache module_sha with
    | some cached => (some ⟨cached.sha256_normalized, cached.simhash64⟩, acc.evidence, acc.cache)
    | none =>
      let module_simhash := simhash64 env.tokenHash acc.tokens
      (some ⟨module_sha, module_simhash⟩, acc.evidence,
        acc.cache.setModule module_sha ⟨module_sha, module_simhash⟩)

/-! ### `trace2/analyzer.py`: rule engine -/

/-- `str(x)` on an optional string field; `str(None)` is `"None"`. -/
def pyStrOpt : Option String → String
  | none => "None"
  | some s => s

/-- `Analyzer._active_requirements`. -/
def active_requirements (config : ConfigBundle) (project_id : String) : List String :=
  match config.matrix.find? (fun item => item.id = project_id) with
  | none => []
  | some entry =>
    (entry.requires.filter (fun req => req.must_have)).map (fun req => pyStrOpt req.id)

/-- The matched-rule dict `{"rule_id": ..., "priority": ..., "expect": ...}`. -/
structure MatchedRule where
  rule_id : String
  priority : Int
  expect : List Expectation
deriving DecidableEq

/-- The loop-body filter of `Analyzer._matching_rules`: a rule is kept
unless one of the two `continue` branches fires. -/
def rule_matches (project_id : String) (requirements : List String)
    (rule : ExpectationRule) : Bool :=
  let projectsOk :=
    match rule.when.projects with
    | none => true
    | some ps => if ps.isEmpty then true else ps.contains "*" || ps.contains project_id
  let requiresOk :=
    match rule.when.requires_all with
    | none => true
    | some ra => if ra.isEmpty then true else ra.all (fun req => requirements.contains req)
  projectsOk && requiresOk

/-- `Analyzer._matching_rules`: filter, then Python's stable
`sorted(..., key=priority, reverse=True)`, which `List.insertionSort`
with the reflexive descending relation reproduces exactly. -/
def matching_rules (project_id : String) (requirements : List String)
    (rules : List ExpectationRule) : List MatchedRule :=
  List.insertionSort (fun a b : MatchedRule => b.priority ≤ a.priority)
    ((rules.filter (rule_matches project_id requirements)).map
      (fun r => ⟨r.id, r.priority, r.expect⟩))

/-- The selected-expectation dict built by `Analyzer._select_expectation`. -/
structure ExpectationSel where
  rule_id : String
  expected_level : String
  target : ExpectationTarget
deriving DecidableEq

/-- `Analyzer._select_expectation`: first match across rules, then within a
rule's `expect` list. -/
def select_expectation (rules : List MatchedRule) (module_id : String) :
    Option ExpectationSel :=
  rules.findSome? fun rule =>
    (rule.expect.find? (fun exp => exp.module = module_id)).map fun exp =>
      ⟨rule.rule_id, exp.expected_level, exp.target⟩

/-! ### `trace2/analyzer.py`: thresholds and status -/

/-- `Analyzer._resolve_thresholds`. -/
def resolve_thresholds (defaults : DefaultsConfig) (expected_level : String) :
    ThresholdRec :=
  match defaults.thresholds.lookup expected_level with
  | some t => t
  | none => ⟨some 1, some 0⟩

/-- `Analyzer._classify_status`. -/
def classify_status (score : ℚ) (thresholds : ThresholdRec) (target_type : String) :
    String :=
  let ok_threshold := thresholds.ok.getD 1
  let warn_threshold := thresholds.warn.getD 0
  if ok_threshold ≤ score then
    if target_type = "baseline" then "OK_BASELINE" else "OK_EXPECTED"
  else if warn_threshold ≤ score then "WARN"
  else "DRIFT_UNEXPECTED"

/-- Python's `round(x, 4)` (half-to-even at the fourth decimal). -/
def round4 (q : ℚ) : ℚ :=
  let scaled := q * 10000
  let f := ⌊scaled⌋
  let rounded : ℤ :=
    if scaled - f < 1 / 2 then f
    else if (1 : ℚ) / 2 < scaled - f then f + 1
    else if f % 2 = 0 then f else f + 1
  (rounded : ℚ) / 10000

/-! ### `trace2/analyzer.py`: target resolution -/

/-- The in-run baseline memo `Analyzer._baseline_cache`: baseline id to the
per-module fingerprint dict. -/
abbrev Memo := List (String × List (String × ModuleFingerprint))

/-- Python dict assignment `d[k] = v`: overwrite in place or append. -/
def dictSet (l : List (String × ModuleFingerprint)) (k : String) (v : ModuleFingerprint) :
    List (String × ModuleFingerprint) :=
  if (l.lookup k).isSome then
    l.map (fun p => if p.1 = k then (k, v) else p)
  else l ++ [(k, v)]

/-- The body of the `for mod in self.config.modules` loop of
`_baseline_module_fingerprint`. -/
def baseline_fold_step (env : Env) (baseline_path : String)
    (st : List (String × ModuleFingerprint) × Cache) (mod : Module) :
    List (String × ModuleFingerprint) × Cache :=
  let module_files := env.resolveModuleFiles baseline_path mod
  let (module_fp, _, c) := fingerprint_module env baseline_path st.2 module_files
  match module_fp with
  | some fp => (dictSet st.1 mod.id fp, c)
  | none => (st.1, c)

/-- `Analyzer._baseline_module_fingerprint`; errors model the raised
`ValueError`. -/
def baseline_module_fingerprint (env : Env) (config : ConfigBundle) (memo : Memo)
    (cache : Cache) (baseline_id : String) (module : Module) :
    Except String (Option ModuleFingerprint × Memo × Cache) :=
  match memo.lookup baseline_id with
  | some fps => .ok (fps.lookup module.id, memo, cache)
  | none =>
    match config.baselines.find? (fun b => b.id = baseline_id) with
    | none => .error ("Unknown baseline id: " ++ baseline_id)
    | some baseline =>
      let baseline_path := env.resolveBaselinePath baseline
      let folded := config.modules.foldl (baseline_fold_step env baseline_path) ([], cache)
      .ok (folded.1.lookup module.id, memo ++ [(baseline_id, folded.1)], folded.2)

/-- `Analyzer._resolve_target_fingerprint`.  `if not baseline_id` is Python
truthiness: both `None` and the empty string fall through to `None`. -/
def resolve_target_fingerprint (env : Env) (config : ConfigBundle) (memo : Memo)
    (cache : Cache) (expectation : ExpectationSel) (module : Module) :
    Except String (Option ModuleFingerprint × Memo × Cache) :=
  let target := expectation.target
  if target.type = "baseline" then
    match target.baseline_id with
    | none => .ok (none, memo, cache)
    | some baseline_id =>
      if baseline_id = "" then .ok (none, memo, cache)
      else baseline_module_fingerprint env config memo cache baseline_id module
  else if target.type = "signature" then
    match target.signature, target.sha256 with
    | some signature, some sha256 => .ok (some ⟨sha256, signature⟩, memo, cache)
    | _, _ => .ok (none, memo, cache)
  else .ok (none, memo, cache)

/-! ### `trace2/analyzer.py`: the per-module loop body of `_analyze_project` -/

/-- One report row for a module. -/
structure ModuleRow where
  module_id : String
  title : String
  status : String
  score : Option ℚ
  expected_rule_id : Option String
  expected_level : Option String
  target : Option ExpectationTarget
deriving DecidableEq

/-- The body of the `for module in sorted(...)` loop of
`Analyzer._analyze_project`, producing this module's report row and the
updated memo and cache. -/
def analyze_module_step (env : Env) (config : ConfigBundle) (project_path : String)
    (rules : List MatchedRule) (module : Module) (memo : Memo) (cache : Cache) :
    Except String (ModuleRow × Memo × Cache) :=
  let module_files := env.resolveModuleFiles project_path module
  let fpr := fingerprint_module env project_path cache module_files
  let module_fingerprint := fpr.1
  let cache1 := fpr.2.2
  if module_files = [] then
    .ok (⟨module.id, module.title, "MISSING", none, none, none, none⟩, memo, cache1)
  else
    match select_expectation rules module.id with
    | none =>
      .ok (⟨module.id, module.title, "UNMAPPED", none, none, none, none⟩, memo, cache1)
    | some expectation =>
      match resolve_target_fingerprint env config memo cache1 expectation module with
      | .error msg => .error msg
      | .ok (target_fingerprint, memo1, cache2) =>
        match target_fingerprint, module_fingerprint with
        | some target_fp, some module_fp =>
          match similarity_score module_fp.sha256_normalized target_fp.sha256_normalized
              module_fp.simhash64 target_fp.simhash64 with
          | none => .error "invalid simhash hex"
          | some score =>
            let thresholds := resolve_thresholds config.expectations.defaults
              expectation.expected_level
            let status := classify_status score thresholds expectation.target.type
            .ok (⟨module.id, module.title, status, some (round4 score),
                some expectation.rule_id, some expectation.expected_level,
                some expectation.target⟩, memo1, cache2)
        | _, _ =>
          .ok (⟨module.id, module.title, "MISSING", none, some expectation.rule_id,
              some expectation.expected_level, some expectation.target⟩, memo1, cache2)

/-- The module loop of `_analyze_project`, accumulating report rows. -/
def analyze_modules (env : Env) (config : ConfigBundle) (project_path : String)
    (rules : List MatchedRule) :
    List Module → List ModuleRow → Memo → Cache →
      Except String (List ModuleRow × Memo × Cache)
  | [], rows, memo, cache => .ok (rows, memo, cache)
  | m :: ms, rows, memo, cache =>
    match analyze_module_step env config project_path rules m memo cache with
    | .error e => .error e
    | .ok (row, memo1, cache1) =>
      analyze_modules env config project_path rules ms (rows ++ [row]) memo1 cache1

/-! ### `trace2/analyzer.py`: project level -/

/-- `Analyzer._resolve_project_path`; the error models the `ValueError` for
a git source without a snapshot. -/
def resolve_project_path (env : Env) (project : Project) : Except String String :=
  if project.source.type = "git" then
    match project.source.snapshot with
    | none => .error "git project missing snapshot"
    | some snapshot => .ok (env.checkoutGit (project.source.repo.getD "") snapshot.ref)
  else .ok (env.expanduserResolve (project.source.path.getD ""))

/-- The `snapshot_ref` computation of `_analyze_project` (lines 193-197):
the configured git ref, or the configured (unresolved) `path or ""` for an
`fs` source, or `""`.  `Option.getD ""` is extensionally `path or ""`. -/
def snapshot_ref (project : Project) : String :=
  if project.source.type = "git" then
    match project.source.snapshot with
    | some snapshot => snapshot.ref
    | none => ""
  else if project.source.type = "fs" then
    project.source.path.getD ""
  else ""

/-- One project's entry in `report.json`. -/
structure ProjectReport where
  id : String
  title : String
  snapshot_ref : String
  requirements : List String
  modules : List ModuleRow
deriving DecidableEq

/-- `Analyzer._analyze_project`, restricted to the report (the evidence
bundle carries no information the claims consult). -/
def analyze_project (env : Env) (config : ConfigBundle) (project : Project)
    (memo : Memo) (cache : Cache) :
    Except String (ProjectReport × Memo × Cache) :=
  match resolve_project_path env project with
  | .error e => .error e
  | .ok project_path =>
    let reqs := active_requirements config project.id
    let rules := matching_rules project.id reqs config.expectations.rules
    match analyze_modules env config project_path rules
        (List.insertionSort (fun a b : Module => a.id ≤ b.id) config.modules)
        [] memo cache with
    | .error e => .error e
    | .ok (rows, memo1, cache1) =>
      .ok (⟨project.id, project.title, snapshot_ref project,
          List.insertionSort (fun a b : String => a ≤ b) reqs, rows⟩, memo1, cache1)

/-- The project loop of `Analyzer.analyze`. -/
def analyze_projects (env : Env) (config : ConfigBundle) :
    List Project → List ProjectReport → Memo → Cache →
      Except String (List ProjectReport × Memo × Cache)
  | [], reports, memo, cache => .ok (reports, memo, cache)
  | p :: ps, reports, memo, cache =>
    match analyze_project env config p memo cache with
    | .error e => .error e
    | .ok (report, memo1, cache1) =>
      analyze_projects env config ps (reports ++ [report]) memo1 cache1

/-- `Analyzer.analyze`, restricted to the `projects` list of `report.json`
(JSON serialization preserves the list order). -/
def analyze_report (env : Env) (config : ConfigBundle) (cache0 : Cache) :
    Except String (List ProjectReport) :=
  match analyze_projects env config
      (List.insertionSort (fun a b : Project => a.id ≤ b.id) config.projects)
      [] [] cache0 with
  | .error e => .error e
  | .ok (reports, _, _) => .ok reports

/-! ## Lemmas about hex formatting and parsing -/

/-- A lowercase hex digit character (`0`-`9` or `a`-`f`). -/
def IsLowerHexChar (c : Char) : Prop :=
  (48 ≤ c.toNat ∧ c.toNat ≤ 57) ∨ (97 ≤ c.toNat ∧ c.toNat ≤ 102)

instance (c : Char) : Decidable (IsLowerHexChar c) := by
  unfold IsLowerHexChar; infer_instance

theorem hexChar_isLowerHex {n : Nat} (h : n < 16) : IsLowerHexChar (hexChar n) := by
  revert h
  revert n
  decide

theorem hexRevFuel_chars {fuel : Nat} :
    ∀ {n : Nat} {ch : Char}, ch ∈ hexRevFuel fuel n → IsLowerHexChar ch := by
  induction fuel with
  | zero => intro n ch h; simp [hexRevFuel] at h
  | succ fuel ih =>
    intro n ch h
    simp only [hexRevFuel] at h
    split at h
    · simp only [List.mem_singleton] at h
      subst h
      exact hexChar_isLowerHex (by omega)
    · rcases List.mem_cons.mp h with h | h
      · subst h
        exact hexChar_isLowerHex (Nat.mod_lt _ (by omega))
      · exact ih h

theorem hexRevFuel_length {fuel : Nat} :
    ∀ {n k : Nat}, n < 16 ^ k → 1 ≤ k → (hexRevFuel fuel n).length ≤ k := by
  induction fuel with
  | zero => intro n k _ _; simp [hexRevFuel]
  | succ fuel ih =>
    intro n k hn hk
    simp only [hexRevFuel]
    split
    · simpa using hk
    · rename_i hbig
      have hk2 : 2 ≤ k := by
        by_contra hcon
        have hk1 : k = 1 := by omega
        subst hk1
        simp only [pow_one] at hn
        omega
      have hdiv : n / 16 < 16 ^ (k - 1) := by
        have : n < 16 ^ (k - 1) * 16 := by
          have : 16 ^ (k - 1) * 16 = 16 ^ k := by
            rw [← pow_succ]
            congr 1
            omega
          omega
        omega
      have := ih hdiv (by omega)
      simp only [List.length_cons]
      omega

theorem toHex16_spec {n : Nat} (h : n < 2 ^ 64) :
    (toHex16 n).length = 16 ∧ ∀ c ∈ (toHex16 n).data, IsLowerHexChar c := by
  have hlen : (hexRev n).reverse.length ≤ 16 := by
    rw [List.length_reverse]
    exact hexRevFuel_length (k := 16) (by norm_num at h ⊢; omega) (by norm_num)
  constructor
  · show (String.mk _).data.length = 16
    simp only [List.length_append, List.length_replicate]
    omega
  · intro c hc
    simp only [toHex16, List.mem_append, List.mem_replicate] at hc
    rcases hc with ⟨_, rfl⟩ | hc
    · decide
    · exact hexRevFuel_chars (List.mem_reverse.mp hc)

theorem hexVal?_lt_16 {c : Char} {d : Nat} (h : hexVal? c = some d) : d < 16 := by
  unfold hexVal? at h
  split at h
  · simp at h; omega
  · split at h
    · simp at h; omega
    · split at h
      · simp at h; omega
      · simp at h

theorem parseHex_fold_bound :
    ∀ (l : List Char) (a : Nat), (∀ c ∈ l, (hexVal? c).isSome) →
      ∃ v, l.foldl
          (fun acc c =>
            match acc, hexVal? c with
            | some a, some v => some (a * 16 + v)
            | _, _ => none)
          (some a) = some v ∧ v < (a + 1) * 16 ^ l.length := by
  intro l
  induction l with
  | nil =>
    intro a _
    exact ⟨a, rfl, by simp⟩
  | cons c l ih =>
    intro a hall
    have hc : (hexVal? c).isSome := hall c (by simp)
    obtain ⟨d, hd⟩ := Option.isSome_iff_exists.mp hc
    have hd16 : d < 16 := hexVal?_lt_16 hd
    obtain ⟨v, hv, hbound⟩ := ih (a * 16 + d) (fun c hc => hall c (by simp [hc]))
    refine ⟨v, ?_, ?_⟩
    · simpa [hd] using hv
    · calc v < (a * 16 + d + 1) * 16 ^ l.length := hbound
        _ ≤ ((a + 1) * 16) * 16 ^ l.length :=
          Nat.mul_le_mul_right _ (by omega)
        _ = (a + 1) * 16 ^ (c :: l).length := by
          rw [List.length_cons, pow_succ]
          ring

/-- A 16-hex-digit string (the claims' hypothesis on simhash inputs). -/
def IsHex16 (s : String) : Prop :=
  s.length = 16 ∧ ∀ c ∈ s.data, (hexVal? c).isSome

instance (s : String) : Decidable (IsHex16 s) := by
  unfold IsHex16; infer_instance

theorem parseHex?_of_isHex16 {s : String} (h : IsHex16 s) :
    ∃ v, parseHex? s = some v ∧ v < 2 ^ 64 := by
  obtain ⟨hlen, hall⟩ := h
  have hne : s.data ≠ [] := by
    intro hnil
    have : s.length = 0 := by simp [String.length, hnil]
    omega
  obtain ⟨v, hv, hbound⟩ := parseHex_fold_bound s.data 0 hall
  refine ⟨v, ?_, ?_⟩
  · unfold parseHex?
    rw [if_neg (by simp [hne])]
    exact hv
  · have : s.data.length = 16 := hlen
    rw [this] at hbound
    simpa using hbound

theorem bitCountFuel_le {fuel : Nat} :
    ∀ {n k : Nat}, n < 2 ^ k → bitCountFuel fuel n ≤ k := by
  induction fuel with
  | zero => intro n k _; simp [bitCountFuel]
  | succ fuel ih =>
    intro n k hn
    simp only [bitCountFuel]
    split
    · omega
    · rename_i hne
      have hk : 1 ≤ k := by
        rcases Nat.eq_zero_or_pos k with rfl | h
        · simp at hn; omega
        · exact h
      have hdiv : n / 2 < 2 ^ (k - 1) := by
        have : 2 ^ (k - 1) * 2 = 2 ^ k := by
          rw [← pow_succ]
          congr 1
          omega
        omega
      have := ih hdiv
      have : n % 2 ≤ 1 := by omega
      omega

theorem bitCount_le_64 {n : Nat} (h : n < 2 ^ 64) : bitCount n ≤ 64 :=
  bitCountFuel_le h

/-! ## C4: `similarity_score` is in `[0,1]`, short-circuits on equal hashes,
and is `1 - d/64` otherwise -/

/-- C4. For 16-hex-digit simhashes, `similarity_score` always returns a
value in `[0,1]`; it returns exactly `1` when the normalized hashes are
equal, and otherwise `1 - d/64` where `d ≤ 64` is the Hamming distance of
the two simhashes. -/
theorem similarity_score_spec (sha_a sha_b simhash_a simhash_b : String)
    (ha : IsHex16 simhash_a) (hb : IsHex16 simhash_b) :
    ∃ s, similarity_score sha_a sha_b simhash_a simhash_b = some s ∧
      0 ≤ s ∧ s ≤ 1 ∧
      (sha_a = sha_b → s = 1) ∧
      (sha_a ≠ sha_b →
        ∃ d, hamming_distance simhash_a simhash_b = some d ∧ d ≤ 64 ∧
          s = 1 - (d : ℚ) / 64) := by
  by_cases heq : sha_a = sha_b
  · refine ⟨1, ?_, by norm_num, by norm_num, fun _ => rfl, fun hne => absurd heq hne⟩
    simp [similarity_score, heq]
  · obtain ⟨x, hx, hxb⟩ := parseHex?_of_isHex16 ha
    obtain ⟨y, hy, hyb⟩ := parseHex?_of_isHex16 hb
    have hxor : x ^^^ y < 2 ^ 64 := Nat.xor_lt_two_pow hxb hyb
    have hd64 : bitCount (x ^^^ y) ≤ 64 := bitCount_le_64 hxor
    have hdist : hamming_distance simhash_a simhash_b = some (bitCount (x ^^^ y)) := by
      unfold hamming_distance
      rw [hx, hy]
      rfl
    set d := bitCount (x ^^^ y) with hdDef
    have hfrac : (0 : ℚ) ≤ 1 - (d : ℚ) / 64 := by
      have : (d : ℚ) ≤ 64 := by exact_mod_cast hd64
      linarith
    have hval : similarity_score sha_a sha_b simhash_a simhash_b =
        some (1 - (d : ℚ) / 64) := by
      unfold similarity_score
      rw [if_neg heq, hdist]
      exact congrArg some (max_eq_right hfrac)
    refine ⟨1 - (d : ℚ) / 64, hval, hfrac, ?_, fun h => absurd h heq, fun _ =>
      ⟨d, hdist, hd64, rfl⟩⟩
    have : (0 : ℚ) ≤ (d : ℚ) / 64 := by positivity
    linarith

/-! ## Stability of `List.insertionSort` (Python's `sorted` is stable) -/

theorem orderedInsert_filter_pos {α : Type} {r : α → α → Prop} [DecidableRel r]
    (q : α → Bool) (x : α) (hq : q x = true) (hall : ∀ y, q y = true → r x y) :
    ∀ l : List α, (List.orderedInsert r x l).filter q = x :: l.filter q := by
  intro l
  induction l with
  | nil => simp [List.orderedInsert, hq]
  | cons y ys ih =>
    by_cases hxy : r x y
    · simp [List.orderedInsert, if_pos hxy, List.filter_cons, hq]
    · have hqy : q y = false := by
        cases hy : q y
        · rfl
        · exact absurd (hall y hy) hxy
      simp [List.orderedInsert, if_neg hxy, List.filter_cons, hqy, ih]

theorem orderedInsert_filter_neg {α : Type} {r : α → α → Prop} [DecidableRel r]
    (q : α → Bool) (x : α) (hq : q x = false) :
    ∀ l : List α, (List.orderedInsert r x l).filter q = l.filter q := by
  intro l
  induction l with
  | nil => simp [List.orderedInsert, hq]
  | cons y ys ih =>
    by_cases hxy : r x y
    · simp [List.orderedInsert, if_pos hxy, List.filter_cons, hq]
    · simp [List.orderedInsert, if_neg hxy, List.filter_cons, ih]

/-- Stability of insertion sort: the sublist of elements of any one
equivalence class (here: any fiber of `q`-selected elements that are
mutually related) is preserved in declaration order. -/
theorem insertionSort_filter {α : Type} {r : α → α → Prop} [DecidableRel r]
    (q : α → Bool) (hcls : ∀ x y, q x = true → q y = true → r x y) :
    ∀ l : List α, (List.insertionSort r l).filter q = l.filter q := by
  intro l
  induction l with
  | nil => rfl
  | cons x xs ih =>
    show (List.orderedInsert r x (List.insertionSort r xs)).filter q = _
    cases hx : q x
    · rw [orderedInsert_filter_neg q x hx, ih, List.filter_cons, hx]
      simp
    · rw [orderedInsert_filter_pos q x hx (fun y hy => hcls x y hx hy), ih,
        List.filter_cons, hx]
      simp

/-! ## C2: rule participation, ordering and two-level first-match selection -/

/-- The participation predicate exactly as the claim states it: `projects`
empty or containing `"*"` or the project id, and every entry of
`requires_all` among the active requirements. -/
def rule_applies_spec (project_id : String) (requirements : List String)
    (rule : ExpectationRule) : Prop :=
  (rule.when.projects.getD [] = [] ∨ "*" ∈ rule.when.projects.getD [] ∨
    project_id ∈ rule.when.projects.getD []) ∧
  ∀ q ∈ rule.when.requires_all.getD [], q ∈ requirements

theorem rule_matches_iff (project_id : String) (requirements : List String)
    (rule : ExpectationRule) :
    rule_matches project_id requirements rule = true ↔
      rule_applies_spec project_id requirements rule := by
  unfold rule_matches rule_applies_spec
  rcases hp : rule.when.projects with _ | ps <;>
    rcases hr : rule.when.requires_all with _ | ra <;>
      simp only [hp, hr, Option.getD_some, Option.getD_none]
  · simp
  · by_cases hre : ra = []
    · simp [hre]
    · simp [List.isEmpty_iff, hre, List.contains, List.all_eq_true]
  · by_cases hpe : ps = []
    · simp [hpe]
    · simp [List.isEmpty_iff, hpe, List.contains]
  · by_cases hpe : ps = [] <;> by_cases hre : ra = [] <;>
      simp [List.isEmpty_iff, hpe, hre, List.contains, List.all_eq_true]

/-- `_select_expectation` is the two-level ordered search: the first
element, in rule order and then expectation-declaration order, whose
module id matches. -/
theorem select_expectation_eq_flat (module_id : String) :
    ∀ ms : List MatchedRule,
      select_expectation ms module_id =
        ((ms.flatMap (fun r => r.expect.map (fun e => (r.rule_id, e)))).find?
            (fun pe => pe.2.module = module_id)).map
          (fun pe => ⟨pe.1, pe.2.expected_level, pe.2.target⟩) := by
  intro ms
  induction ms with
  | nil => rfl
  | cons r rs ih =>
    unfold select_expectation at ih ⊢
    simp only [List.findSome?_cons, List.flatMap_cons, List.find?_append, List.find?_map]
    cases hfind : r.expect.find? (fun exp => exp.module = module_id) with
    | none =>
      have hcomp : r.expect.find?
          ((fun pe : String × Expectation => decide (pe.2.module = module_id)) ∘
            (fun e => (r.rule_id, e))) = none := hfind
      rw [hcomp]
      simpa using ih
    | some e =>
      have hcomp : r.expect.find?
          ((fun pe : String × Expectation => decide (pe.2.module = module_id)) ∘
            (fun e => (r.rule_id, e))) = some e := hfind
      rw [hcomp]
      simp

/-- C2.  The expectation governing a module is chosen by a two-level
ordered search: a rule participates iff the claim's applicability
predicate holds; participating rules are ordered by priority descending
(stability: every equal-priority fiber keeps declaration order); and the
selection is the first matching expectation in that order. -/
theorem expectation_selection_spec (project_id : String) (requirements : List String)
    (rules : List ExpectationRule) (module_id : String) :
    (∀ rule, rule_matches project_id requirements rule = true ↔
        rule_applies_spec project_id requirements rule) ∧
    (matching_rules project_id requirements rules).Pairwise
        (fun a b => b.priority ≤ a.priority) ∧
    (∀ p : Int,
      (matching_rules project_id requirements rules).filter
          (fun m => m.priority = p) =
        ((rules.filter (rule_matches project_id requirements)).map
            (fun r => (⟨r.id, r.priority, r.expect⟩ : MatchedRule))).filter
          (fun m => m.priority = p)) ∧
    (matching_rules project_id requirements rules).Perm
        ((rules.filter (rule_matches project_id requirements)).map
          (fun r => ⟨r.id, r.priority, r.expect⟩)) ∧
    (select_expectation (matching_rules project_id requirements rules) module_id =
      (((matching_rules project_id requirements rules).flatMap
            (fun r => r.expect.map (fun e => (r.rule_id, e)))).find?
          (fun pe => pe.2.module = module_id)).map
        (fun pe => ⟨pe.1, pe.2.expected_level, pe.2.target⟩)) := by
  refine ⟨fun rule => rule_matches_iff project_id requirements rule, ?_, ?_, ?_,
    select_expectation_eq_flat module_id _⟩
  · haveI : IsTotal MatchedRule (fun a b => b.priority ≤ a.priority) :=
      ⟨fun a b => (le_total b.priority a.priority).imp id id⟩
    haveI : IsTrans MatchedRule (fun a b => b.priority ≤ a.priority) :=
      ⟨fun _ _ _ hab hbc => le_trans hbc hab⟩
    exact List.sorted_insertionSort _ _
  · intro p
    exact insertionSort_filter _
      (fun x y hx hy => by
        have hx' : x.priority = p := of_decide_eq_true hx
        have hy' : y.priority = p := of_decide_eq_true hy
        omega) _
  · exact List.perm_insertionSort _ _

/-! ## C5: `simhash64` on empty or all-empty token lists, and its output
shape -/

theorem simhashBits_lt {vec : Nat → Int} : simhashBits vec < 2 ^ 64 := by
  have general :
      ∀ (l : List Nat), (∀ i ∈ l, i < 64) → ∀ acc : Nat, acc < 2 ^ 64 →
        (l.foldl (fun fp i => if 0 ≤ vec i then fp ||| (1 <<< i) else fp) acc) < 2 ^ 64 := by
    intro l
    induction l with
    | nil => intro _ acc hacc; simpa using hacc
    | cons i l ih =>
      intro hall acc hacc
      simp only [List.foldl_cons]
      apply ih (fun j hj => hall j (by simp [hj]))
      split
      · apply Nat.or_lt_two_pow hacc
        have hi : i < 64 := hall i (by simp)
        have : (1 <<< i : Nat) = 2 ^ i := Nat.one_shiftLeft i
        rw [this]
        exact Nat.pow_lt_pow_right (by omega) hi
      · exact hacc
  exact general (List.range 64) (by intro i hi; exact List.mem_range.mp hi) 0 (by norm_num)

theorem simhashVector_all_empty {tokenHash : String → Nat} :
    ∀ (tokens : List String), (∀ t ∈ tokens, t = "") →
      simhashVector tokenHash tokens = fun _ => 0 := by
  have step :
      ∀ (tokens : List String) (vec : Nat → Int), (∀ t ∈ tokens, t = "") →
        tokens.foldl
          (fun vec token =>
            if token = "" then vec
            else
              let value := tokenHash token
              fun i => vec i + (if (value >>> i) &&& 1 = 1 then 1 else -1))
          vec = vec := by
    intro tokens
    induction tokens with
    | nil => intro vec _; rfl
    | cons t ts ih =>
      intro vec hall
      have ht : t = "" := hall t (by simp)
      simp only [List.foldl_cons, if_pos ht]
      exact ih vec (fun t ht => hall t (by simp [ht]))
  intro tokens hall
  exact step tokens _ hall

theorem simhash64_nil (tokenHash : String → Nat) :
    simhash64 tokenHash [] = "ffffffffffffffff" := by
  show toHex16 (simhashBits (simhashVector tokenHash [])) = _
  have : simhashVector tokenHash [] = fun _ => 0 := rfl
  rw [this]
  decide

/-- C5. `simhash64` of an empty token list (or of a list whose tokens are
all the empty string, which the loop skips) is the all-bits-set string
`"ffffffffffffffff"`, and in general the output is a 16-character
lowercase-hex string. -/
theorem simhash64_spec (tokenHash : String → Nat) (tokens : List String) :
    simhash64 tokenHash [] = "ffffffffffffffff" ∧
    ((∀ t ∈ tokens, t = "") → simhash64 tokenHash tokens = "ffffffffffffffff") ∧
    (simhash64 tokenHash tokens).length = 16 ∧
    ∀ c ∈ (simhash64 tokenHash tokens).data, IsLowerHexChar c := by
  refine ⟨simhash64_nil tokenHash, ?_, ?_⟩
  · intro hall
    show toHex16 (simhashBits (simhashVector tokenHash tokens)) = _
    rw [simhashVector_all_empty tokens hall]
    decide
  · exact toHex16_spec simhashBits_lt

/-- Witness for C5 at a concrete all-empty token list. -/
theorem simhash64_spec_witness :
    simhash64 (fun _ => 0) ["", ""] = "ffffffffffffffff" :=
  (simhash64_spec (fun _ => 0) ["", ""]).2.1 (by decide)

/-! ## C3: the classifier's decision order -/

/-- Resolving thresholds and classifying, written as the claim states it. -/
theorem classify_resolve_eq (d : DefaultsConfig) (lvl : String) (score : ℚ)
    (target_type : String) :
    classify_status score (resolve_thresholds d lvl) target_type =
      (let th := (d.thresholds.lookup lvl).getD ⟨some 1, some 0⟩
       if th.ok.getD 1 ≤ score then
         if target_type = "baseline" then "OK_BASELINE" else "OK_EXPECTED"
       else if th.warn.getD 0 ≤ score then "WARN"
       else "DRIFT_UNEXPECTED") := by
  unfold classify_status resolve_thresholds
  cases d.thresholds.lookup lvl <;> rfl

/-- C3.  The per-module classification is evaluated in exactly this order:
no files ⇒ `MISSING` with null score; no expectation ⇒ `UNMAPPED`; absent
target or module fingerprint ⇒ `MISSING`; otherwise the thresholds for the
expectation's level (falling back to `ok = 1`, `warn = 0` when the level is
unconfigured) classify the similarity score. -/
theorem classifier_order_spec (env : Env) (config : ConfigBundle) (project_path : String)
    (rules : List MatchedRule) (module : Module) (memo : Memo) (cache : Cache) :
    (env.resolveModuleFiles project_path module = [] →
      analyze_module_step env config project_path rules module memo cache =
        .ok (⟨module.id, module.title, "MISSING", none, none, none, none⟩, memo,
          (fingerprint_module env project_path cache
            (env.resolveModuleFiles project_path module)).2.2)) ∧
    (env.resolveModuleFiles project_path module ≠ [] →
      select_expectation rules module.id = none →
      analyze_module_step env config project_path rules module memo cache =
        .ok (⟨module.id, module.title, "UNMAPPED", none, none, none, none⟩, memo,
          (fingerprint_module env project_path cache
            (env.resolveModuleFiles project_path module)).2.2)) ∧
    (∀ e target_fp memo1 cache2,
      env.resolveModuleFiles project_path module ≠ [] →
      select_expectation rules module.id = some e →
      resolve_target_fingerprint env config memo
          (fingerprint_module env project_path cache
            (env.resolveModuleFiles project_path module)).2.2 e module =
        .ok (target_fp, memo1, cache2) →
      (target_fp = none ∨
        (fingerprint_module env project_path cache
          (env.resolveModuleFiles project_path module)).1 = none) →
      analyze_module_step env config project_path rules module memo cache =
        .ok (⟨module.id, module.title, "MISSING", none, some e.rule_id,
          some e.expected_level, some e.target⟩, memo1, cache2)) ∧
    (∀ e target_fp module_fp memo1 cache2 score,
      env.resolveModuleFiles project_path module ≠ [] →
      select_expectation rules module.id = some e →
      resolve_target_fingerprint env config memo
          (fingerprint_module env project_path cache
            (env.resolveModuleFiles project_path module)).2.2 e module =
        .ok (some target_fp, memo1, cache2) →
      (fingerprint_module env project_path cache
        (env.resolveModuleFiles project_path module)).1 = some module_fp →
      similarity_score module_fp.sha256_normalized target_fp.sha256_normalized
          module_fp.simhash64 target_fp.simhash64 = some score →
      analyze_module_step env config project_path rules module memo cache =
        .ok (⟨module.id, module.title,
          (let th := (config.expectations.defaults.thresholds.lookup
              e.expected_level).getD ⟨some 1, some 0⟩
           if th.ok.getD 1 ≤ score then
             if e.target.type = "baseline" then "OK_BASELINE" else "OK_EXPECTED"
           else if th.warn.getD 0 ≤ score then "WARN"
           else "DRIFT_UNEXPECTED"),
          some (round4 score), some e.rule_id, some e.expected_level,
          some e.target⟩, memo1, cache2)) := by
  refine ⟨?_, ?_, ?_, ?_⟩
  · intro hfiles
    simp only [analyze_module_step, hfiles]
    simp
  · intro hfiles hsel
    simp only [analyze_module_step, if_neg hfiles, hsel]
  · intro e target_fp memo1 cache2 hfiles hsel hres habsent
    simp only [analyze_module_step, if_neg hfiles, hsel, hres]
    rcases habsent with h | h
    · subst h
      rfl
    · rw [h]
      cases target_fp <;> rfl
  · intro e target_fp module_fp memo1 cache2 score hfiles hsel hres hfp hsim
    simp only [analyze_module_step, if_neg hfiles, hsel, hres, hfp, hsim]
    rw [← classify_resolve_eq]

/-- Witness for C3, exercising the empty-file-list branch at concrete
inputs. -/
theorem classifier_order_spec_witness :
    analyze_module_step
        ⟨id, fun _ => 0, id, fun _ => none, fun _ _ => [], fun _ => "", fun _ _ => "", id⟩
        ⟨[], [], [], [], [], ⟨⟨[]⟩, []⟩⟩ "root" [] ⟨"m", "M", "c", [], [], []⟩ [] emptyCache =
      .ok (⟨"m", "M", "MISSING", none, none, none, none⟩, [],
        (fingerprint_module
          ⟨id, fun _ => 0, id, fun _ => none, fun _ _ => [], fun _ => "", fun _ _ => "", id⟩
          "root" emptyCache []).2.2) :=
  (classifier_order_spec
    ⟨id, fun _ => 0, id, fun _ => none, fun _ _ => [], fun _ => "", fun _ _ => "", id⟩
    ⟨[], [], [], [], [], ⟨⟨[]⟩, []⟩⟩ "root" [] ⟨"m", "M", "c", [], [], []⟩ [] emptyCache).1 rfl

/-! ## C9: the fallback thresholds make `DRIFT_UNEXPECTED` unreachable -/

theorem similarity_score_nonneg {sha_a sha_b simhash_a simhash_b : String} {s : ℚ}
    (h : similarity_score sha_a sha_b simhash_a simhash_b = some s) : 0 ≤ s := by
  unfold similarity_score at h
  split at h
  · cases h
    norm_num
  · cases hd : hamming_distance simhash_a simhash_b with
    | none =>
      rw [hd] at h
      simp at h
    | some d =>
      rw [hd] at h
      simp only [Option.map, Option.bind] at h
      cases h
      exact le_max_left _ _

/-- C9.  When the expectation's level is absent from the configured
thresholds (so the `ok = 1.0`, `warn = 0.0` fallback applies), a module
that reaches scoring is never classified `DRIFT_UNEXPECTED`: every
similarity score is at least `0 = warn`. -/
theorem fallback_never_drift (d : DefaultsConfig) (lvl target_type : String)
    (sha_a sha_b simhash_a simhash_b : String) (s : ℚ)
    (hlk : d.thresholds.lookup lvl = none)
    (hs : similarity_score sha_a sha_b simhash_a simhash_b = some s) :
    classify_status s (resolve_thresholds d lvl) target_type ≠ "DRIFT_UNEXPECTED" := by
  have hnn : 0 ≤ s := similarity_score_nonneg hs
  unfold resolve_thresholds
  rw [hlk]
  unfold classify_status
  simp only [Option.getD_some]
  by_cases h1 : (1 : ℚ) ≤ s
  · rw [if_pos h1]
    split <;> simp
  · rw [if_neg h1, if_pos hnn]
    simp

/-- Witness for C9 at concrete inputs. -/
theorem fallback_never_drift_witness :
    classify_status 1 (resolve_thresholds ⟨[]⟩ "gold") "baseline" ≠ "DRIFT_UNEXPECTED" :=
  fallback_never_drift ⟨[]⟩ "gold" "baseline" "x" "x" "a" "b" 1 rfl (by rfl)

/-! ## C6: target-fingerprint resolution -/

/-- Counterexample to C6 as stated: a baseline-kind target whose
`baseline_id` is the empty string — which is not the id of any configured
baseline — does not raise; Python's `if not baseline_id` treats it as
absent and the resolution returns `None`, so the module is classified
through the absent-target `MISSING` branch. -/
theorem resolve_target_empty_baseline_id_no_error :
    resolve_target_fingerprint
        ⟨id, fun _ => 0, id, fun _ => none, fun _ _ => [], fun _ => "", fun _ _ => "", id⟩
        ⟨[], [], [⟨"base1", "B", ⟨"fs", none, none, some "/b"⟩⟩], [], [], ⟨⟨[]⟩, []⟩⟩
        [] emptyCache ⟨"r1", "gold", ⟨"baseline", some "", none, none⟩⟩
        ⟨"m", "M", "c", [], [], []⟩ =
      .ok (none, [], emptyCache) ∧
    ¬ ∃ msg, resolve_target_fingerprint
        ⟨id, fun _ => 0, id, fun _ => none, fun _ _ => [], fun _ => "", fun _ _ => "", id⟩
        ⟨[], [], [⟨"base1", "B", ⟨"fs", none, none, some "/b"⟩⟩], [], [], ⟨⟨[]⟩, []⟩⟩
        [] emptyCache ⟨"r1", "gold", ⟨"baseline", some "", none, none⟩⟩
        ⟨"m", "M", "c", [], [], []⟩ = .error msg := by
  constructor
  · rfl
  · rintro ⟨msg, hmsg⟩
    rw [show resolve_target_fingerprint
        ⟨id, fun _ => 0, id, fun _ => none, fun _ _ => [], fun _ => "", fun _ _ => "", id⟩
        ⟨[], [], [⟨"base1", "B", ⟨"fs", none, none, some "/b"⟩⟩], [], [], ⟨⟨[]⟩, []⟩⟩
        [] emptyCache ⟨"r1", "gold", ⟨"baseline", some "", none, none⟩⟩
        ⟨"m", "M", "c", [], [], []⟩ = .ok (none, [], emptyCache) from rfl] at hmsg
    exact Except.noConfusion hmsg

theorem lookup_none_of_keys {β : Type} (p : String → Prop) (b : String) (hb : ¬ p b)
    (l : List (String × β)) (hall : ∀ e ∈ l, p e.1) : l.lookup b = none := by
  rw [List.lookup_eq_none_iff]
  intro e he
  have hne : e.1 ≠ b := fun h => hb (h ▸ hall e he)
  simp only [bne_iff_ne, ne_eq]
  exact fun h => hne h.symm

theorem lookup_map_overwrite (k k' : String) (v : ModuleFingerprint) (h : k' ≠ k) :
    ∀ es : List (String × ModuleFingerprint),
      (es.map (fun p => if p.1 = k then (k, v) else p)).lookup k' = es.lookup k' := by
  intro es
  induction es with
  | nil => rfl
  | cons e es ih =>
    obtain ⟨ek, ev⟩ := e
    simp only [List.map_cons]
    by_cases hek : ek = k
    · dsimp only
      rw [if_pos hek]
      subst hek
      rw [List.lookup_cons, List.lookup_cons, beq_eq_false_iff_ne.mpr h]
      exact ih
    · dsimp only
      rw [if_neg hek]
      rw [List.lookup_cons, List.lookup_cons]
      cases hbeq : k' == ek
      · exact ih
      · rfl

theorem dictSet_lookup_ne (l : List (String × ModuleFingerprint)) (k : String)
    (v : ModuleFingerprint) (k' : String) (h : k' ≠ k) :
    (dictSet l k v).lookup k' = l.lookup k' := by
  unfold dictSet
  split
  · exact lookup_map_overwrite k k' v h l
  · rw [List.lookup_append, List.lookup_cons, beq_eq_false_iff_ne.mpr h]
    simp

/-- If every configured module sharing the looked-up module id matches no
files in the baseline tree, the baseline fold records no fingerprint for
that id. -/
theorem baseline_fold_lookup_none (env : Env) (path : String) (mid : String) :
    ∀ (mods : List Module) (acc : List (String × ModuleFingerprint)) (cache : Cache),
      (∀ m ∈ mods, m.id = mid → env.resolveModuleFiles path m = []) →
      acc.lookup mid = none →
      ((mods.foldl (baseline_fold_step env path) (acc, cache)).1).lookup mid = none := by
  intro mods
  induction mods with
  | nil => intro acc cache _ hacc; exact hacc
  | cons m ms ih =>
    intro acc cache hall hacc
    simp only [List.foldl_cons]
    have hstep : ∀ st : List (String × ModuleFingerprint) × Cache,
        st.1.lookup mid = none → (baseline_fold_step env path st m).1.lookup mid = none := by
      intro st hst
      unfold baseline_fold_step
      dsimp only
      by_cases hm : m.id = mid
      · have hfiles : env.resolveModuleFiles path m = [] := hall m (by simp) hm
        rw [hfiles]
        have hfp : fingerprint_module env path st.2 [] = (none, [], st.2) := by
          unfold fingerprint_module
          rw [if_pos rfl]
        rw [hfp]
        exact hst
      · cases hr : (fingerprint_module env path st.2 (env.resolveModuleFiles path m)).1 with
        | none => exact hst
        | some fp =>
          exact (dictSet_lookup_ne st.1 m.id fp mid (fun h => hm h.symm)).trans hst
    exact ih _ _ (fun x hx => hall x (by simp [hx]))
      (hstep (acc, cache) hacc)

/-- C6 (amended).  A baseline-kind target with a present, non-empty
`baseline_id` that is not the id of any configured baseline raises the
fatal `Unknown baseline id` error (the in-run memo only ever holds
configured ids); a known baseline whose tree yields no fingerprint for the
module resolves to absent without error; a signature-kind target returns
`(sha256, signature)` verbatim when both are present and absent when
either is missing.  (As stated the claim fails for the empty-string
`baseline_id`, which Python truthiness routes to the absent branch.) -/
theorem resolve_target_fingerprint_spec (env : Env) (config : ConfigBundle)
    (memo : Memo) (cache : Cache) (e : ExpectationSel) (module : Module) :
    (∀ b, e.target.type = "baseline" → e.target.baseline_id = some b → b ≠ "" →
      (∀ entry ∈ memo, ∃ bl ∈ config.baselines, bl.id = entry.1) →
      config.baselines.find? (fun bl => bl.id = b) = none →
      resolve_target_fingerprint env config memo cache e module =
        .error ("Unknown baseline id: " ++ b)) ∧
    (∀ b bl, e.target.type = "baseline" → e.target.baseline_id = some b → b ≠ "" →
      memo.lookup b = none →
      config.baselines.find? (fun x => x.id = b) = some bl →
      (∀ m ∈ config.modules, m.id = module.id →
        env.resolveModuleFiles (env.resolveBaselinePath bl) m = []) →
      ∃ memo1 cache1,
        resolve_target_fingerprint env config memo cache e module =
          .ok (none, memo1, cache1)) ∧
    (∀ sig sha, e.target.type = "signature" → e.target.signature = some sig →
      e.target.sha256 = some sha →
      resolve_target_fingerprint env config memo cache e module =
        .ok (some ⟨sha, sig⟩, memo, cache)) ∧
    (e.target.type = "signature" → (e.target.signature = none ∨ e.target.sha256 = none) →
      resolve_target_fingerprint env config memo cache e module =
        .ok (none, memo, cache)) := by
  refine ⟨?_, ?_, ?_, ?_⟩
  · intro b htype hbid hne hmemo hfind
    have hlk : memo.lookup b = none := by
      apply lookup_none_of_keys (fun k => (config.baselines.find? (fun bl => bl.id = k)).isSome)
      · rw [hfind]; simp
      · intro entry hentry
        obtain ⟨bl, hbl, hid⟩ := hmemo entry hentry
        have : config.baselines.find? (fun x => x.id = entry.1) ≠ none := by
          intro hnone
          have := List.find?_eq_none.mp hnone bl hbl
          simp [hid] at this
        cases hf : config.baselines.find? (fun x => x.id = entry.1) with
        | none => exact absurd hf this
        | some _ => simp [hf]
    unfold resolve_target_fingerprint
    rw [if_pos htype, hbid]
    simp only [if_neg hne]
    unfold baseline_module_fingerprint
    rw [hlk, hfind]
  · intro b bl htype hbid hne hlk hfind hfiles
    have key : baseline_module_fingerprint env config memo cache b module =
        .ok ((config.modules.foldl
            (baseline_fold_step env (env.resolveBaselinePath bl)) ([], cache)).1.lookup
              module.id,
          memo ++ [(b, (config.modules.foldl
            (baseline_fold_step env (env.resolveBaselinePath bl)) ([], cache)).1)],
          (config.modules.foldl
            (baseline_fold_step env (env.resolveBaselinePath bl)) ([], cache)).2) := by
      unfold baseline_module_fingerprint
      rw [hlk, hfind]
    have hlook := baseline_fold_lookup_none env (env.resolveBaselinePath bl) module.id
      config.modules [] cache hfiles rfl
    refine ⟨memo ++ [(b, (config.modules.foldl
        (baseline_fold_step env (env.resolveBaselinePath bl)) ([], cache)).1)],
      (config.modules.foldl
        (baseline_fold_step env (env.resolveBaselinePath bl)) ([], cache)).2, ?_⟩
    unfold resolve_target_fingerprint
    rw [if_pos htype, hbid]
    simp only [if_neg hne]
    rw [key, hlook]
  · intro sig sha htype hsig hsha
    unfold resolve_target_fingerprint
    rw [if_neg (by rw [htype]; decide), if_pos htype, hsig, hsha]
  · intro htype hmiss
    unfold resolve_target_fingerprint
    rw [if_neg (by rw [htype]; decide), if_pos htype]
    rcases hmiss with h | h
    · rw [h]
    · rw [h]
      cases e.target.signature <;> rfl

/-- Witness for the amended C6 at concrete inputs (the unknown-baseline
branch). -/
theorem resolve_target_fingerprint_spec_witness :
    resolve_target_fingerprint
        ⟨id, fun _ => 0, id, fun _ => none, fun _ _ => [], fun _ => "", fun _ _ => "", id⟩
        ⟨[], [], [⟨"base1", "B", ⟨"fs", none, none, some "/b"⟩⟩], [], [], ⟨⟨[]⟩, []⟩⟩
        [] emptyCache ⟨"r1", "gold", ⟨"baseline", some "zzz", none, none⟩⟩
        ⟨"m", "M", "c", [], [], []⟩ =
      .error "Unknown baseline id: zzz" :=
  (resolve_target_fingerprint_spec
      ⟨id, fun _ => 0, id, fun _ => none, fun _ _ => [], fun _ => "", fun _ _ => "", id⟩
      ⟨[], [], [⟨"base1", "B", ⟨"fs", none, none, some "/b"⟩⟩], [], [], ⟨⟨[]⟩, []⟩⟩
      [] emptyCache ⟨"r1", "gold", ⟨"baseline", some "zzz", none, none⟩⟩
      ⟨"m", "M", "c", [], [], []⟩).1 "zzz" rfl rfl (by decide)
    (by intro entry h; exact absurd h (by simp)) (by decide)

/-! ## C8: report ordering -/

theorem analyze_module_step_row_id {env : Env} {config : ConfigBundle}
    {project_path : String} {rules : List MatchedRule} {module : Module} {memo : Memo}
    {cache : Cache} {row : ModuleRow} {memo1 : Memo} {cache1 : Cache}
    (h : analyze_module_step env config project_path rules module memo cache =
      .ok (row, memo1, cache1)) :
    row.module_id = module.id := by
  unfold analyze_module_step at h
  dsimp only at h
  repeat' split at h
  any_goals exact Except.noConfusion h
  all_goals exact (congrArg (fun t => t.1.module_id) (Except.ok.inj h)).symm

theorem analyze_modules_ids (env : Env) (config : ConfigBundle) (project_path : String)
    (rules : List MatchedRule) :
    ∀ (ms : List Module) (rows : List ModuleRow) (memo : Memo) (cache : Cache)
      (rows' : List ModuleRow) (memo' : Memo) (cache' : Cache),
      analyze_modules env config project_path rules ms rows memo cache =
        .ok (rows', memo', cache') →
      rows'.map (fun r => r.module_id) =
        rows.map (fun r => r.module_id) ++ ms.map (fun m => m.id) := by
  intro ms
  induction ms with
  | nil =>
    intro rows memo cache rows' memo' cache' h
    cases h
    simp
  | cons m ms ih =>
    intro rows memo cache rows' memo' cache' h
    unfold analyze_modules at h
    cases hstep : analyze_module_step env config project_path rules m memo cache with
    | error e =>
      rw [hstep] at h
      exact Except.noConfusion h
    | ok t =>
      obtain ⟨row, memo1, cache1⟩ := t
      rw [hstep] at h
      have hrec := ih (rows ++ [row]) memo1 cache1 rows' memo' cache' h
      rw [hrec]
      have hid : row.module_id = m.id := analyze_module_step_row_id hstep
      simp [hid]

theorem analyze_project_spec {env : Env} {config : ConfigBundle} {project : Project}
    {memo : Memo} {cache : Cache} {rep : ProjectReport} {memo' : Memo} {cache' : Cache}
    (h : analyze_project env config project memo cache = .ok (rep, memo', cache')) :
    rep.id = project.id ∧
    rep.modules.map (fun r => r.module_id) =
      (List.insertionSort (fun a b : Module => a.id ≤ b.id) config.modules).map
        (fun m => m.id) ∧
    rep.requirements = List.insertionSort (fun a b : String => a ≤ b)
      (active_requirements config project.id) := by
  unfold analyze_project at h
  cases hp : resolve_project_path env project with
  | error e =>
    rw [hp] at h
    exact Except.noConfusion h
  | ok project_path =>
    rw [hp] at h
    dsimp only at h
    cases hm : analyze_modules env config project_path
        (matching_rules project.id (active_requirements config project.id)
          config.expectations.rules)
        (List.insertionSort (fun a b : Module => a.id ≤ b.id) config.modules)
        [] memo cache with
    | error e =>
      rw [hm] at h
      exact Except.noConfusion h
    | ok t =>
      obtain ⟨rows, memo1, cache1⟩ := t
      rw [hm] at h
      cases h
      refine ⟨rfl, ?_, rfl⟩
      have := analyze_modules_ids env config project_path _ _ [] memo cache
        _ _ _ hm
      simpa using this

theorem analyze_projects_spec (env : Env) (config : ConfigBundle) :
    ∀ (ps : List Project) (reports : List ProjectReport) (memo : Memo) (cache : Cache)
      (reports' : List ProjectReport) (memo' : Memo) (cache' : Cache),
      analyze_projects env config ps reports memo cache = .ok (reports', memo', cache') →
      reports'.map (fun r => r.id) =
        reports.map (fun r => r.id) ++ ps.map (fun p => p.id) ∧
      ∀ rep ∈ reports', rep ∈ reports ∨
        ∃ p memo0 cache0 memo1 cache1,
          analyze_project env config p memo0 cache0 = .ok (rep, memo1, cache1) := by
  intro ps
  induction ps with
  | nil =>
    intro reports memo cache reports' memo' cache' h
    cases h
    exact ⟨by simp, fun rep hrep => Or.inl hrep⟩
  | cons p ps ih =>
    intro reports memo cache reports' memo' cache' h
    unfold analyze_projects at h
    cases hstep : analyze_project env config p memo cache with
    | error e =>
      rw [hstep] at h
      exact Except.noConfusion h
    | ok t =>
      obtain ⟨rep, memo1, cache1⟩ := t
      rw [hstep] at h
      obtain ⟨hids, hmem⟩ := ih (reports ++ [rep]) memo1 cache1 reports' memo' cache' h
      have hrid : rep.id = p.id := (analyze_project_spec hstep).1
      refine ⟨by rw [hids]; simp [hrid], ?_⟩
      intro r hr
      rcases hmem r hr with hin | hfound
      · rcases List.mem_append.mp hin with hin | hin
        · exact Or.inl hin
        · have : r = rep := by simpa using hin
          subst this
          exact Or.inr ⟨p, memo, cache, memo1, cache1, hstep⟩
      · obtain ⟨q, m0, c0, m1, c1, hq⟩ := hfound
        exact Or.inr ⟨q, m0, c0, m1, c1, hq⟩

/-- C8.  The report's project list is sorted by project id, each project's
module rows are sorted by module id, and each project's requirements list
is sorted — all lexicographically and regardless of declaration order;
project and module rows are a permutation of the configured ids. -/
theorem report_ordering_spec (env : Env) (config : ConfigBundle) (cache0 : Cache)
    (reports : List ProjectReport)
    (h : analyze_report env config cache0 = .ok reports) :
    (reports.map (fun r => r.id)).Pairwise (· ≤ ·) ∧
    (reports.map (fun r => r.id)).Perm (config.projects.map (fun p => p.id)) ∧
    ∀ rep ∈ reports,
      (rep.modules.map (fun r => r.module_id)).Pairwise (· ≤ ·) ∧
      (rep.modules.map (fun r => r.module_id)).Perm
        (config.modules.map (fun m => m.id)) ∧
      rep.requirements.Pairwise (· ≤ ·) := by
  haveI hTotP : IsTotal Project (fun a b : Project => a.id ≤ b.id) :=
    ⟨fun a b => le_total a.id b.id⟩
  haveI hTransP : IsTrans Project (fun a b : Project => a.id ≤ b.id) :=
    ⟨fun _ _ _ hab hbc => le_trans hab hbc⟩
  haveI hTotM : IsTotal Module (fun a b : Module => a.id ≤ b.id) :=
    ⟨fun a b => le_total a.id b.id⟩
  haveI hTransM : IsTrans Module (fun a b : Module => a.id ≤ b.id) :=
    ⟨fun _ _ _ hab hbc => le_trans hab hbc⟩
  haveI hTotS : IsTotal String (fun a b : String => a ≤ b) :=
    ⟨fun a b => le_total a b⟩
  haveI hTransS : IsTrans String (fun a b : String => a ≤ b) :=
    ⟨fun _ _ _ hab hbc => le_trans hab hbc⟩
  unfold analyze_report at h
  cases hp : analyze_projects env config
      (List.insertionSort (fun a b : Project => a.id ≤ b.id) config.projects)
      [] [] cache0 with
  | error e =>
    rw [hp] at h
    exact Except.noConfusion h
  | ok t =>
    obtain ⟨reports1, memo1, cache1⟩ := t
    rw [hp] at h
    cases h
    obtain ⟨hids, hmem⟩ := analyze_projects_spec env config _ [] [] cache0
      _ _ _ hp
    simp only [List.map_nil, List.nil_append] at hids
    refine ⟨?_, ?_, ?_⟩
    · rw [hids]
      rw [List.pairwise_map]
      exact List.sorted_insertionSort _ _
    · rw [hids]
      exact (List.perm_insertionSort _ _).map _
    · intro rep hrep
      rcases hmem rep hrep with hin | ⟨p, m0, c0, m1, c1, hfound⟩
      · simp at hin
      · obtain ⟨_, hmods, hreqs⟩ := analyze_project_spec hfound
        refine ⟨?_, ?_, ?_⟩
        · rw [hmods, List.pairwise_map]
          exact List.sorted_insertionSort _ _
        · rw [hmods]
          exact (List.perm_insertionSort _ _).map _
        · rw [hreqs]
          exact List.sorted_insertionSort _ _

/-- Witness for C8 at a one-project, one-module configuration (larger
configurations would require kernel evaluation of `String.ltb`, which does
not reduce; the sorting behaviour itself is proved in general above). -/
theorem report_ordering_spec_witness :
    analyze_report
        ⟨id, fun _ => 0, id, fun _ => none, fun _ _ => [], fun _ => "", fun _ _ => "", id⟩
        ⟨[⟨"p1", "P1", ⟨"fs", none, none, some "/b"⟩⟩],
         [⟨"m1", "M1", "c", [], [], []⟩],
         [], [], [], ⟨⟨[]⟩, []⟩⟩ emptyCache =
      .ok [⟨"p1", "P1", "/b", [],
        [⟨"m1", "M1", "MISSING", none, none, none, none⟩]⟩] ∧
    (([⟨"p1", "P1", "/b", [],
        [⟨"m1", "M1", "MISSING", none, none, none, none⟩]⟩] :
          List ProjectReport).map (fun r => r.id)).Pairwise (· ≤ ·) :=
  ⟨rfl,
    (report_ordering_spec
      ⟨id, fun _ => 0, id, fun _ => none, fun _ _ => [], fun _ => "", fun _ _ => "", id⟩
      ⟨[⟨"p1", "P1", ⟨"fs", none, none, some "/b"⟩⟩],
       [⟨"m1", "M1", "c", [], [], []⟩],
       [], [], [], ⟨⟨[]⟩, []⟩⟩ emptyCache _ rfl).1⟩

/-! ## C7: `snapshot_ref` is the raw configured path, not the resolved one -/

/-- Counterexample to C7 as stated: for a filesystem-sourced project whose
configured path is `"data"`, with path resolution modelled as prefixing
`"/resolved/"`, the written `snapshot_ref` is the raw configured string
`"data"` while the resolved path used for reading files is
`"/resolved/data"`. -/
theorem snapshot_ref_not_resolved :
    snapshot_ref ⟨"p1", "P1", ⟨"fs", none, none, some "data"⟩⟩ = "data" ∧
    resolve_project_path
        ⟨id, fun _ => 0, id, fun _ => none, fun _ _ => [], fun _ => "", fun _ _ => "",
          fun p => "/resolved/" ++ p⟩
        ⟨"p1", "P1", ⟨"fs", none, none, some "data"⟩⟩ = .ok "/resolved/data" ∧
    snapshot_ref ⟨"p1", "P1", ⟨"fs", none, none, some "data"⟩⟩ ≠ "/resolved/data" := by
  refine ⟨rfl, rfl, by decide⟩

/-- C7 (amended).  `snapshot_ref` is the configured git ref for git-sourced
projects with a snapshot, and the raw configured `path or ""` (not the
expanded/resolved path) for filesystem-sourced projects; the resolved path
is what `_resolve_project_path` feeds to file matching. -/
theorem snapshot_ref_spec (env : Env) (project : Project) :
    (∀ snap, project.source.type = "git" → project.source.snapshot = some snap →
      snapshot_ref project = snap.ref) ∧
    (project.source.type = "fs" →
      snapshot_ref project = project.source.path.getD "" ∧
      resolve_project_path env project =
        .ok (env.expanduserResolve (project.source.path.getD ""))) := by
  constructor
  · intro snap htype hsnap
    unfold snapshot_ref
    rw [if_pos htype, hsnap]
  · intro htype
    have hng : project.source.type ≠ "git" := by rw [htype]; decide
    constructor
    · unfold snapshot_ref
      rw [if_neg hng, if_pos htype]
    · unfold resolve_project_path
      rw [if_neg hng]

/-- Witness for the amended C7 at a concrete filesystem project. -/
theorem snapshot_ref_spec_witness :
    snapshot_ref ⟨"p1", "P1", ⟨"fs", none, none, some "~/data"⟩⟩ =
        (some "~/data" : Option String).getD "" ∧
      resolve_project_path
          ⟨id, fun _ => 0, id, fun _ => none, fun _ _ => [], fun _ => "", fun _ _ => "",
            fun p => "/home/u/" ++ p⟩
          ⟨"p1", "P1", ⟨"fs", none, none, some "~/data"⟩⟩ =
        .ok ((fun p => "/home/u/" ++ p) ((some "~/data" : Option String).getD "")) :=
  (snapshot_ref_spec
      ⟨id, fun _ => 0, id, fun _ => none, fun _ _ => [], fun _ => "", fun _ _ => "",
        fun p => "/home/u/" ++ p⟩
      ⟨"p1", "P1", ⟨"fs", none, none, some "~/data"⟩⟩).2 rfl

/-! ## C1: module fingerprints are cache-independent

The hypotheses say the caches are *coherent*: every entry a prior run of
this same pipeline could have written agrees with what a cold run computes
(an empty cache is trivially coherent).  Under them, a warm run returns
exactly the cold-cache fingerprint. -/

theorem emptyCache_fileCache (k : String) : emptyCache.fileCache k = none := rfl

theorem emptyCache_moduleCache (k : String) : emptyCache.moduleCache k = none := rfl

/-- The record `_fingerprint_file` computes and stores on a cache miss. -/
def coldFileRec (env : Env) (text : String) : CacheRec :=
  ⟨env.sha256hex (env.normalize text),
    simhash64 env.tokenHash (splitTokens (env.normalize text))⟩

/-- File-cache coherence: anything stored under the raw hash of a text is
the cold record of that text. -/
def FileCacheCoherent (env : Env) (cache : Cache) : Prop :=
  ∀ text r, cache.fileCache (env.sha256hex text) = some r → r = coldFileRec env text

/-- The file loop of `_fingerprint_module` run from a cold cache. -/
def coldAccum (env : Env) (project_path : String) (module_files : List String) : FpAccum :=
  module_files.foldl (fp_step env project_path) ⟨[], "", [], emptyCache⟩

/-- Module-cache coherence: anything stored under a cold run's module key
is that cold run's module record. -/
def ModuleCacheCoherent (env : Env) (project_path : String) (cache : Cache) : Prop :=
  ∀ (module_files : List String) r,
    cache.moduleCache
        (env.sha256hex (coldAccum env project_path module_files).shaCat) = some r →
    r = ⟨env.sha256hex (coldAccum env project_path module_files).shaCat,
      simhash64 env.tokenHash (coldAccum env project_path module_files).tokens⟩

/-- The cold cache's entries are a subset of the warm cache's. -/
def FileCacheSub (cw cc : Cache) : Prop :=
  ∀ k r, cc.fileCache k = some r → cw.fileCache k = some r

/-- Every warm entry is cold-correct or mirrored in the cold cache. -/
def FileCacheQuasi (env : Env) (cw cc : Cache) : Prop :=
  ∀ text r, cw.fileCache (env.sha256hex text) = some r →
    r = coldFileRec env text ∨ cc.fileCache (env.sha256hex text) = some r

/-- One file step run on a warm and on a cold cache produces the same
fingerprint and preserves the pair invariant; neither touches the module
store. -/
theorem fingerprint_file_pair (env : Env) (pp f : String) (cw cc : Cache)
    (hsub : FileCacheSub cw cc) (hquasi : FileCacheQuasi env cw cc) :
    (fingerprint_file env cw pp f).1 = (fingerprint_file env cc pp f).1 ∧
    FileCacheSub (fingerprint_file env cw pp f).2 (fingerprint_file env cc pp f).2 ∧
    FileCacheQuasi env (fingerprint_file env cw pp f).2 (fingerprint_file env cc pp f).2 ∧
    (fingerprint_file env cw pp f).2.moduleCache = cw.moduleCache ∧
    (fingerprint_file env cc pp f).2.moduleCache = cc.moduleCache := by
  unfold fingerprint_file
  cases hread : env.readFile (pathJoin pp f) with
  | none => exact ⟨rfl, hsub, hquasi, rfl, rfl⟩
  | some text =>
    dsimp only
    cases hw : cw.fileCache (env.sha256hex text) with
    | some rw =>
      rcases hquasi text rw hw with hcold | hcc
      · cases hc : cc.fileCache (env.sha256hex text) with
        | some rc =>
          have hrc := hsub _ _ hc
          rw [hw] at hrc
          obtain rfl : rw = rc := Option.some.inj hrc
          exact ⟨rfl, hsub, hquasi, rfl, rfl⟩
        | none =>
          subst hcold
          refine ⟨rfl, ?_, ?_, rfl, rfl⟩
          · intro k r h
            dsimp only [Cache.setFile] at h
            by_cases hk : k = env.sha256hex text
            · rw [if_pos hk] at h
              rw [hk, hw]
              exact h.symm ▸ rfl
            · rw [if_neg hk] at h
              exact hsub _ _ h
          · intro text' r h
            rcases hquasi text' r h with h1 | h2
            · exact Or.inl h1
            · right
              dsimp only [Cache.setFile]
              by_cases hk : env.sha256hex text' = env.sha256hex text
              · rw [hk] at h2
                rw [hc] at h2
                exact Option.noConfusion h2
              · rw [if_neg hk]
                exact h2
      · cases hc : cc.fileCache (env.sha256hex text) with
        | some rc =>
          have hrc := hsub _ _ hc
          rw [hw] at hrc
          obtain rfl : rw = rc := Option.some.inj hrc
          exact ⟨rfl, hsub, hquasi, rfl, rfl⟩
        | none =>
          rw [hc] at hcc
          exact Option.noConfusion hcc
    | none =>
      have hc : cc.fileCache (env.sha256hex text) = none := by
        cases hcc : cc.fileCache (env.sha256hex text) with
        | none => rfl
        | some rc =>
          have := hsub _ _ hcc
          rw [hw] at this
          exact Option.noConfusion this
      rw [hc]
      refine ⟨rfl, ?_, ?_, rfl, rfl⟩
      · intro k r h
        dsimp only [Cache.setFile] at h ⊢
        by_cases hk : k = env.sha256hex text
        · rw [if_pos hk] at h ⊢
          exact h
        · rw [if_neg hk] at h ⊢
          exact hsub _ _ h
      · intro text' r h
        dsimp only [Cache.setFile] at h ⊢
        by_cases hk : env.sha256hex text' = env.sha256hex text
        · rw [if_pos hk] at h
          right
          rw [if_pos hk]
          exact h
        · rw [if_neg hk] at h
          rcases hquasi text' r h with h1 | h2
          · exact Or.inl h1
          · right
            rw [if_neg hk]
            exact h2

/-- The file loop produces identical evidence, hash input and token list
on a warm and a cold cache, preserving the invariant. -/
theorem fp_fold_pair (env : Env) (pp : String) :
    ∀ (files : List String) (ev : List FileEvidence) (cat : String)
      (toks : List String) (cw cc : Cache),
      FileCacheSub cw cc → FileCacheQuasi env cw cc →
      (files.foldl (fp_step env pp) ⟨ev, cat, toks, cw⟩).evidence =
        (files.foldl (fp_step env pp) ⟨ev, cat, toks, cc⟩).evidence ∧
      (files.foldl (fp_step env pp) ⟨ev, cat, toks, cw⟩).shaCat =
        (files.foldl (fp_step env pp) ⟨ev, cat, toks, cc⟩).shaCat ∧
      (files.foldl (fp_step env pp) ⟨ev, cat, toks, cw⟩).tokens =
        (files.foldl (fp_step env pp) ⟨ev, cat, toks, cc⟩).tokens ∧
      FileCacheSub (files.foldl (fp_step env pp) ⟨ev, cat, toks, cw⟩).cache
        (files.foldl (fp_step env pp) ⟨ev, cat, toks, cc⟩).cache ∧
      FileCacheQuasi env (files.foldl (fp_step env pp) ⟨ev, cat, toks, cw⟩).cache
        (files.foldl (fp_step env pp) ⟨ev, cat, toks, cc⟩).cache ∧
      (files.foldl (fp_step env pp) ⟨ev, cat, toks, cw⟩).cache.moduleCache =
        cw.moduleCache ∧
      (files.foldl (fp_step env pp) ⟨ev, cat, toks, cc⟩).cache.moduleCache =
        cc.moduleCache := by
  intro files
  induction files with
  | nil =>
    intro ev cat toks cw cc hsub hquasi
    exact ⟨rfl, rfl, rfl, hsub, hquasi, rfl, rfl⟩
  | cons f fs ih =>
    intro ev cat toks cw cc hsub hquasi
    obtain ⟨hfp, hsub', hquasi', hwm, hcm⟩ := fingerprint_file_pair env pp f cw cc hsub hquasi
    simp only [List.foldl_cons]
    have hstep : ∀ cache : Cache,
        fp_step env pp ⟨ev, cat, toks, cache⟩ f =
          match (fingerprint_file env cache pp f).1 with
          | none => ⟨ev, cat, toks, (fingerprint_file env cache pp f).2⟩
          | some fp => ⟨ev ++ [⟨f, fp.sha256_normalized, fp.simhash64⟩],
              cat ++ fp.sha256_normalized, toks ++ [fp.simhash64],
              (fingerprint_file env cache pp f).2⟩ := by
      intro cache
      unfold fp_step
      cases fingerprint_file env cache pp f with
      | mk o c => cases o <;> rfl
    rw [hstep cw, hstep cc]
    cases hresw : (fingerprint_file env cw pp f).1 with
    | none =>
      rw [hfp] at hresw
      rw [hresw]
      obtain ⟨h1, h2, h3, h4, h5, h6, h7⟩ := ih ev cat toks _ _ hsub' hquasi'
      exact ⟨h1, h2, h3, h4, h5, h6.trans hwm, h7.trans hcm⟩
    | some fp =>
      rw [hfp] at hresw
      rw [hresw]
      obtain ⟨h1, h2, h3, h4, h5, h6, h7⟩ := ih
        (ev ++ [⟨f, fp.sha256_normalized, fp.simhash64⟩])
        (cat ++ fp.sha256_normalized) (toks ++ [fp.simhash64]) _ _ hsub' hquasi'
      exact ⟨h1, h2, h3, h4, h5, h6.trans hwm, h7.trans hcm⟩

/-- C1.  With coherent caches, `_fingerprint_module` on a fixed non-empty
sorted file list returns exactly the fingerprint a cold-cache run computes:
warm and cold runs agree on both `sha256_normalized` and `simhash64`. -/
theorem fingerprint_module_warm_eq_cold (env : Env) (project_path : String)
    (cache : Cache) (module_files : List String)
    (hfile : FileCacheCoherent env cache)
    (hmod : ModuleCacheCoherent env project_path cache)
    (hne : module_files ≠ [])
    (_hsorted : module_files.Pairwise (· < ·)) :
    (fingerprint_module env project_path cache module_files).1 =
      (fingerprint_module env project_path emptyCache module_files).1 := by
  unfold fingerprint_module
  rw [if_neg hne, if_neg hne]
  dsimp only
  obtain ⟨hev, hcat, htoks, hsub, hquasi, hwm, hcm⟩ :=
    fp_fold_pair env project_path module_files [] "" [] cache emptyCache
      (fun k r h => Option.noConfusion h)
      (fun text r h => Or.inl (hfile text r h))
  rw [hcat, hcm, emptyCache_moduleCache]
  cases hwlook : (module_files.foldl (fp_step env project_path)
      ⟨[], "", [], cache⟩).cache.moduleCache
      (env.sha256hex (module_files.foldl (fp_step env project_path)
        ⟨[], "", [], emptyCache⟩).shaCat) with
  | none =>
    rw [htoks]
  | some cm =>
    rw [hwm] at hwlook
    have hcoh := hmod module_files cm hwlook
    simp only [coldAccum] at hcoh
    rw [hcoh]

/-- Witness for C1: the empty cache is trivially coherent. -/
theorem fingerprint_module_warm_eq_cold_witness :
    (fingerprint_module
        ⟨id, fun _ => 0, id, fun _ => none, fun _ _ => [], fun _ => "", fun _ _ => "", id⟩
        "root" emptyCache ["a"]).1 =
      (fingerprint_module
        ⟨id, fun _ => 0, id, fun _ => none, fun _ _ => [], fun _ => "", fun _ _ => "", id⟩
        "root" emptyCache ["a"]).1 :=
  fingerprint_module_warm_eq_cold
    ⟨id, fun _ => 0, id, fun _ => none, fun _ _ => [], fun _ => "", fun _ _ => "", id⟩
    "root" emptyCache ["a"]
    (fun _ _ h => Option.noConfusion h)
    (fun _ _ h => Option.noConfusion h)
    (by decide)
    (List.pairwise_singleton _ _)

/-! ## C10: a non-empty list of unresolvable files still fingerprints -/

theorem fp_fold_unreadable (env : Env) (pp : String) :
    ∀ (files : List String) (acc : FpAccum),
      (∀ f ∈ files, env.readFile (pathJoin pp f) = none) →
      files.foldl (fp_step env pp) acc = acc := by
  intro files
  induction files with
  | nil => intro acc _; rfl
  | cons f fs ih =>
    intro acc hall
    simp only [List.foldl_cons]
    have hstep : fp_step env pp acc f = acc := by
      unfold fp_step fingerprint_file
      rw [hall f (by simp)]
    rw [hstep]
    exact ih acc (fun x hx => hall x (by simp [hx]))

/-- C10.  When every listed file is unresolvable (but the list is
non-empty), `_fingerprint_module` still returns a fingerprint — the
SHA-256 hex digest of empty input paired with the all-bits-set simhash —
so the module is not routed through the absent-fingerprint `MISSING`
branch. -/
theorem fingerprint_module_all_unreadable (env : Env) (project_path : String)
    (cache : Cache) (module_files : List String)
    (hne : module_files ≠ [])
    (hall : ∀ f ∈ module_files, env.readFile (pathJoin project_path f) = none)
    (hmod : ModuleCacheCoherent env project_path cache) :
    (fingerprint_module env project_path cache module_files).1 =
      some ⟨env.sha256hex "", "ffffffffffffffff"⟩ := by
  unfold fingerprint_module
  rw [if_neg hne]
  dsimp only
  rw [fp_fold_unreadable env project_path module_files _ hall]
  have hcoldacc : coldAccum env project_path module_files = ⟨[], "", [], emptyCache⟩ :=
    fp_fold_unreadable env project_path module_files _ hall
  dsimp only
  cases hlook : cache.moduleCache (env.sha256hex "") with
  | none =>
    rw [simhash64_nil]
  | some cm =>
    have hcoh := hmod module_files cm (by rw [hcoldacc]; exact hlook)
    rw [hcoldacc] at hcoh
    dsimp only at hcoh
    rw [hcoh, simhash64_nil]

/-- Witness for C10 at a concrete unresolvable file list. -/
theorem fingerprint_module_all_unreadable_witness :
    (fingerprint_module
        ⟨id, fun _ => 0, id, fun _ => none, fun _ _ => [], fun _ => "", fun _ _ => "", id⟩
        "root" emptyCache ["a"]).1 =
      some ⟨(id : String → String) "", "ffffffffffffffff"⟩ :=
  fingerprint_module_all_unreadable
    ⟨id, fun _ => 0, id, fun _ => none, fun _ _ => [], fun _ => "", fun _ _ => "", id⟩
    "root" emptyCache ["a"]
    (by decide)
    (fun _ _ => rfl)
    (fun _ _ h => Option.noConfusion h)

/-- Witness for C4 at concrete inputs. -/
theorem similarity_score_spec_witness :
    IsHex16 "00000000000000ff" ∧ IsHex16 "0000000000000000" ∧
      ∃ s, similarity_score "shaA" "shaB" "00000000000000ff" "0000000000000000" = some s ∧
        0 ≤ s ∧ s ≤ 1 ∧
        ("shaA" = "shaB" → s = 1) ∧
        ("shaA" ≠ "shaB" →
          ∃ d, hamming_distance "00000000000000ff" "0000000000000000" = some d ∧ d ≤ 64 ∧
            s = 1 - (d : ℚ) / 64) :=
  ⟨by decide, by decide,
    similarity_score_spec "shaA" "shaB" "00000000000000ff" "0000000000000000"
      (by decide) (by decide)⟩

end Trace2
